import Mathlib

/-!
Shallow embedding of the pass-composition engine (`EffectComposer`) and the
shared-resource manager (`OutlineManager` / `SharedOutlineEffect`) of the
postprocessing repository, together with proofs about the embedded code.

Conventions used throughout:

* Scene-node handles, texture handles and frame-buffer handles are opaque
  natural-number identifiers; only identity matters in the source.
* JavaScript `Map` objects are modelled as insertion-ordered association
  lists, `Set` objects as duplicate-free insertion-ordered lists.
* `Date.now()` is an explicit `Nat` argument.  The static property
  `OutlineManager.lastDepthPassTime` is falsy when unset, so it is modelled
  as a `Nat` where `0` encodes "unset" — exactly the `!OutlineManager.lastDepthPassTime`
  check of the source.
* GPU draw calls have no modelled effect beyond the shared CPU-side state
  they touch; each draw site is recorded as a counted event so that
  "the depth pass ran" is observable.
* A render call that may throw is modelled by an explicit Boolean
  "this call throws" input; an escaping exception is an explicit outcome.
-/

namespace Post

/-- Opaque scene-node handle. -/
abbrev ObjId := Nat

/-- Shared mutable rendering context touched by `OutlineManager.update`:
the scene background (`scene.background`, `none` = JS `null`), the camera
layer mask (`camera.layers.mask`) and the class-level static
`OutlineManager.lastDepthPassTime` (0 = unset/falsy). -/
structure SharedCtx where
  background : Option Nat
  cameraMask : Nat
  lastDepthPassTime : Nat
  deriving Repr, DecidableEq

/-- Result of `camera.layers.set(l)`: the mask becomes the single bit `2^l`. -/
def layerBit (l : Nat) : Nat := 2 ^ l

/-- State of an `OutlineManager` instance (src/effects/OutlineManager.js).
`selectionsByLayer` is the `Map<Number, Selection>` (insertion-ordered
association list layer ↦ member list); `defaultLayer` is `this.selection.layer`,
whose entry is inserted at construction. -/
structure OutlineManager where
  selectionsByLayer : List (Nat × List ObjId)
  defaultLayer : Nat
  currentLayer : Option Nat
  needsUpdate : Bool
  deriving Repr, DecidableEq

namespace OutlineManager

/-- Fresh manager as built by the constructor: only the default selection,
which starts empty, and `needsUpdate = true`. -/
def init (defaultLayer : Nat) : OutlineManager :=
  { selectionsByLayer := [(defaultLayer, [])]
    defaultLayer := defaultLayer
    currentLayer := none
    needsUpdate := true }

/-- JS `this.selectionsByLayer.get(layer)` (first entry wins, as in `Map`). -/
def lookupLayer (m : OutlineManager) (l : Nat) : Option (List ObjId) :=
  (m.selectionsByLayer.find? (fun p => p.1 == l)).map (fun p => p.2)

/-- JS `Map.has` composed over the association list. -/
def hasLayer (m : OutlineManager) (l : Nat) : Bool :=
  (m.lookupLayer l).isSome

/-- Loop head of `update`: does any layer's selection have objects? -/
def hasObjects (m : OutlineManager) : Bool :=
  m.selectionsByLayer.any (fun p => !p.2.isEmpty)

/-- `getSelectionForLayer`: lazily create the selection for `l`
(a fresh `Selection` is appended to the map on first reference). -/
def ensureLayer (m : OutlineManager) (l : Nat) : OutlineManager :=
  if m.hasLayer l then m
  else { m with selectionsByLayer := m.selectionsByLayer ++ [(l, [])] }

/-- Apply `f` to the members of the first entry for layer `l`. -/
def updateFirstLayer (l : Nat) (f : List ObjId → List ObjId) :
    List (Nat × List ObjId) → List (Nat × List ObjId)
  | [] => []
  | p :: ps => if p.1 = l then (p.1, f p.2) :: ps else p :: updateFirstLayer l f ps

/-- `OutlineManager.clearUnused(activeObjects, exceptLayer)`: for every layer
other than `exceptLayer` (skipped only when `exceptLayer !== undefined`),
delete each member that is not in `activeObjects`; `needsUpdate` is set
whenever at least one member was deleted. -/
def clearUnused (m : OutlineManager) (activeObjects : List ObjId)
    (exceptLayer : Option Nat) : OutlineManager :=
  { m with
    selectionsByLayer := m.selectionsByLayer.map (fun p =>
      if exceptLayer = some p.1 then p
      else (p.1, p.2.filter (fun x => activeObjects.contains x)))
    needsUpdate := m.needsUpdate ||
      m.selectionsByLayer.any (fun p =>
        !(exceptLayer = some p.1 : Bool) && p.2.any (fun x => !activeObjects.contains x)) }

/-- Physical render-target size applied by `OutlineManager.setSize(width, height)`:
`w = Math.floor(width * this.resolutionScale)` (and likewise for the height),
passed unchanged to `depthPass.setSize` and `renderTargetMask.setSize`.
The resolution scale is an exactly-representable number, modelled in `ℚ`. -/
def setSizePhysical (width height : Nat) (resolutionScale : ℚ) : Nat × Nat :=
  ((⌊(width : ℚ) * resolutionScale⌋).toNat, (⌊(height : ℚ) * resolutionScale⌋).toNat)

/-- Outcome of one `OutlineManager.update` call.  `result = some b` models a
normal return of `b`; `result = none` models an exception escaping `update`
(the source has no try/catch).  `depthRenders` / `maskRenders` count the
`depthPass.render` / `maskPass.render` invocations of this call. -/
structure UpdateOutcome where
  result : Option Bool
  mgr : OutlineManager
  ctx : SharedCtx
  depthRenders : Nat
  maskRenders : Nat
  deriving Repr, DecidableEq

/-- Mask phase of `update` (source lines 232-270): save the camera mask,
render the mask pass for the current layer when it has a non-empty selection,
otherwise fall back to the default layer, then restore the camera mask and
clear `needsUpdate`.  A throwing `maskPass.render` escapes with the camera
mask still narrowed (nothing restores it on the exception path). -/
def maskPhase (m : OutlineManager) (ctx : SharedCtx) (maskThrows : Bool)
    (depthRenders : Nat) : UpdateOutcome :=
  let savedMask := ctx.cameraMask
  let renderCurrent : Bool :=
    match m.currentLayer with
    | some l =>
      match m.lookupLayer l with
      | some mem => !mem.isEmpty
      | none => false
    | none => false
  let targetLayer : Nat :=
    match m.currentLayer with
    | some l => if renderCurrent then l else m.defaultLayer
    | none => m.defaultLayer
  let ctx1 := { ctx with cameraMask := layerBit targetLayer }
  if maskThrows then
    { result := none, mgr := m, ctx := ctx1
      depthRenders := depthRenders, maskRenders := 1 }
  else
    { result := some true
      mgr := { m with needsUpdate := false }
      ctx := { ctx1 with cameraMask := savedMask }
      depthRenders := depthRenders, maskRenders := 1 }

/-- `OutlineManager.update(renderer, deltaTime)` (source lines 180-271).
Control flow of the source: early `false` return when nothing is selected and
no update is pending; otherwise the depth block runs iff the static dedup
token is falsy or more than 16 ms old (`!lastDepthPassTime || now - lastDepthPassTime > 16`);
the depth block nulls the scene background, renders the depth pass with all
selected objects hidden, stamps the token and restores the background; the
mask phase then always runs once.  `depthThrows` / `maskThrows` say whether
the respective GPU render throws in this call; the depth block restores the
background only after a successful render (no `finally` in the source). -/
def update (m : OutlineManager) (ctx : SharedCtx) (now : Nat)
    (depthThrows maskThrows : Bool) : UpdateOutcome :=
  if !m.needsUpdate && !m.hasObjects then
    { result := some false, mgr := m, ctx := ctx, depthRenders := 0, maskRenders := 0 }
  else
    if ctx.lastDepthPassTime = 0 || now - ctx.lastDepthPassTime > 16 then
      let background := ctx.background
      let ctx1 := { ctx with background := none }
      if depthThrows then
        { result := none, mgr := m, ctx := ctx1, depthRenders := 1, maskRenders := 0 }
      else
        let ctx2 := { ctx1 with lastDepthPassTime := now, background := background }
        maskPhase m ctx2 maskThrows 1
    else
      maskPhase m ctx maskThrows 0

end OutlineManager

/-- Sequence of `update` calls sharing the class-level static state: each call
supplies the manager state a consumer sees at that moment and the current
`Date.now()`; the shared context (and with it the static dedup token) is
threaded through.  The first component accumulates the number of
`depthPass.render` invocations. -/
def updateSeq (calls : List (OutlineManager × Nat)) (ctx : SharedCtx) :
    Nat × SharedCtx :=
  calls.foldl (fun acc call =>
    let r := call.1.update acc.2 call.2 false false
    (acc.1 + r.depthRenders, r.ctx)) (0, ctx)

/-! Embedding of `SharedOutlineEffect.update` (second part of
src/effects/OutlineManager.js, `OutlineMultiEffect`), restricted to the
CPU-visible state it manipulates: the class-level static counters and the
manager.  The edge/blur draw calls touch only effect-private render targets
and are not modelled. -/

/-- Class-level static state shared by every `SharedOutlineEffect` instance:
`SharedOutlineEffect.activeObjects`, `.currentLayer` and `.updateCounter`
(the lazy `if undefined` initializations are folded into the initial state). -/
structure EffectStatics where
  activeObjects : List ObjId
  currentLayer : Option Nat
  updateCounter : Nat
  deriving Repr, DecidableEq

/-- Per-instance state of a `SharedOutlineEffect` relevant to `update`:
its selection layer and its own selection's members. -/
structure SharedOutlineEffect where
  selectionLayer : Nat
  selection : List ObjId
  deriving Repr, DecidableEq

/-- JS `Set.prototype.add` iterated over `ys` (insertion order, no dupes). -/
def addUnique (xs ys : List ObjId) : List ObjId :=
  ys.foldl (fun acc o => if acc.contains o then acc else acc ++ [o]) xs

/-- Lines 677-688 of the source: fetch the manager's layer selection via
`getSelectionForLayer` and add every member of the effect's selection that is
missing, calling `setNeedsUpdate()` for each one actually added. -/
def registerSelection (m : OutlineManager) (l : Nat) (objs : List ObjId) :
    OutlineManager :=
  objs.foldl (fun mm o =>
    if (mm.lookupLayer l).elim false (fun mem => mem.contains o) then mm
    else { mm with
      selectionsByLayer :=
        OutlineManager.updateFirstLayer l (fun mem => mem ++ [o]) mm.selectionsByLayer
      needsUpdate := true })
    (m.ensureLayer l)

/-- Observable outcome of one `SharedOutlineEffect.update` call.
`preCleanupMgr` is the manager state reached just before the
`renderCounter === 2` cleanup check; `accumActive` is the static active set
after this call's additions; `cleanupRan` records whether `clearUnused` was
invoked. -/
structure EffectOutcome where
  mgr : OutlineManager
  statics : EffectStatics
  ctx : SharedCtx
  cleanupRan : Bool
  preCleanupMgr : OutlineManager
  accumActive : List ObjId
  deriving Repr, DecidableEq

/-- `SharedOutlineEffect.update(renderer, inputBuffer, deltaTime)` (source
lines 629-714): increment the static counter, publish this effect's layer as
current, union its selection into the static active set, register the
selection with the manager and run the shared `manager.update` when the
selection is non-empty, and — exactly when the incremented counter equals the
literal 2 — call `clearUnused(activeObjects, ownLayer)`, clear the active
set and reset the counter and current layer.  The GPU renders are taken as
non-throwing here. -/
def SharedOutlineEffect.update (eff : SharedOutlineEffect) (m : OutlineManager)
    (st : EffectStatics) (ctx : SharedCtx) (now : Nat) : EffectOutcome :=
  let counter := st.updateCounter + 1
  let m1 := { m with currentLayer := some eff.selectionLayer }
  let accum := addUnique st.activeObjects eff.selection
  let st1 : EffectStatics :=
    { activeObjects := accum
      currentLayer := some eff.selectionLayer
      updateCounter := counter }
  let step :=
    if eff.selection.isEmpty then (m1, ctx)
    else
      let m2 := registerSelection m1 eff.selectionLayer eff.selection
      let r := m2.update ctx now false false
      (r.mgr, r.ctx)
  if counter = 2 then
    { mgr := step.1.clearUnused accum (some eff.selectionLayer)
      statics := { activeObjects := [], currentLayer := none, updateCounter := 0 }
      ctx := step.2
      cleanupRan := true
      preCleanupMgr := step.1
      accumActive := accum }
  else
    { mgr := step.1
      statics := st1
      ctx := step.2
      cleanupRan := false
      preCleanupMgr := step.1
      accumActive := accum }

/-! Embedding of `EffectComposer` (src/unnamed/part_001).  Buffer and texture
handles are opaque `Nat` identifiers — the ping-pong swap exchanges handles,
never contents. -/

/-- A pass as the composer sees it.  `pid` models object identity;
`depthTex` is the texture stored by `setDepthTexture`; `isDepthPass` means
`instanceof DepthPass && !(instanceof SharedDepthPass)`; `renderThrows` says
whether this pass's `render` throws during the current frame.  `MaskPass`
and `EffectPass` specifics (stencil bookkeeping, the extra shared-depth
argument) touch neither the buffer handles nor the event/exception structure
and are not modelled. -/
structure CPass where
  pid : Nat
  enabled : Bool
  needsSwap : Bool
  needsDepthTexture : Bool
  renderToScreen : Bool
  isRenderPass : Bool
  isMRT : Bool
  isDepthPass : Bool
  renderThrows : Bool
  depthTex : Option Nat
  deriving Repr, DecidableEq

/-- One `pass.render(renderer, inputBuffer, outputBuffer, dt, stencil)`
invocation observed during `EffectComposer.render`, with the buffer handles
it received and whether it threw (and was caught). -/
structure RenderEvent where
  pid : Nat
  needsSwap : Bool
  input : Nat
  output : Nat
  threw : Bool
  deriving Repr, DecidableEq

/-- A single pass render call; fails iff the pass throws this frame. -/
def passRender (p : CPass) (inBuf outBuf : Nat) : Except String RenderEvent :=
  if p.renderThrows then Except.error "render failed"
  else Except.ok
    { pid := p.pid, needsSwap := p.needsSwap, input := inBuf, output := outBuf, threw := false }

/-- Index of the first plain `DepthPass` in the list (source lines 835-840). -/
def depthPassIndex (ps : List CPass) : Option Nat :=
  ps.findIdx? (fun p => p.isDepthPass)

/-- The per-pass loop of `EffectComposer.render` (source lines 869-978):
disabled passes are skipped; the recorded depth pass is skipped when MRT
provides shared depth; an `MRTRenderPass` is skipped when MRT is unsupported
(`continue` inside the try, before the swap); otherwise the pass renders —
a throw is caught at this per-pass boundary (`try/catch` around the render
call) — and then, when `needsSwap`, the input/output handles are swapped. -/
def renderLoop (skip : Option Nat) (useMRT : Bool) :
    List CPass → Nat → Nat → Nat → Except String (List RenderEvent)
  | [], _, _, _ => Except.ok []
  | p :: ps, i, inBuf, outBuf =>
    if !p.enabled then renderLoop skip useMRT ps (i + 1) inBuf outBuf
    else if skip = some i then renderLoop skip useMRT ps (i + 1) inBuf outBuf
    else if p.isMRT && !useMRT then renderLoop skip useMRT ps (i + 1) inBuf outBuf
    else
      let ev : RenderEvent :=
        match passRender p inBuf outBuf with
        | Except.ok ev => ev
        | Except.error _ =>
          { pid := p.pid, needsSwap := p.needsSwap, input := inBuf, output := outBuf,
            threw := true }
      let nextIn := if p.needsSwap then outBuf else inBuf
      let nextOut := if p.needsSwap then inBuf else outBuf
      match renderLoop skip useMRT ps (i + 1) nextIn nextOut with
      | Except.ok evs => Except.ok (ev :: evs)
      | Except.error e => Except.error e

/-- `EffectComposer.render(dt)`: seed the handles from the composer's
ping-pong pair and run the pass loop; `skipDepthPass` is fixed before the
loop from `_useMRT`, the depth-pass index and the shared-depth validity. -/
def composerRender (useMRT validSharedDepth : Bool) (ps : List CPass)
    (inBuf outBuf : Nat) : Except String (List RenderEvent) :=
  let skip := if useMRT && validSharedDepth then depthPassIndex ps else none
  renderLoop skip useMRT ps 0 inBuf outBuf

/-- Same pass with any pending render exception removed. -/
def clearThrow (p : CPass) : CPass := { p with renderThrows := false }

/-- The events form a ping-pong chain from the given input/output pair:
each event sees the current pair, and a swapping event exchanges it. -/
def chainFrom : Nat → Nat → List RenderEvent → Prop
  | _, _, [] => True
  | a, b, e :: es =>
    e.input = a ∧ e.output = b ∧
    chainFrom (if e.needsSwap then b else a) (if e.needsSwap then a else b) es

/-! Pass management: `addPass`, `removePass` and the shared depth texture
(source lines 634-771), plus the MRT substitution decision
(`setMRTRenderPass`, source lines 552-617, and `MRTRenderPass.initialize`,
src/backup/mrtRenderPass/src/passes/MRTRenderPass.js lines 148-203). -/

/-- Environment facts consumed by the MRT creation/initialization chain.
Each flag answers one runtime test of the source in this call. -/
structure MRTEnv where
  rendererPresent : Bool
  ctorThrows : Bool
  isWebGL2 : Bool
  mrtTestThrows : Bool
  mrtTexturesValid : Bool
  createTargetsOk : Bool
  depthTexOk : Bool
  sharedDepthCtorThrows : Bool
  deriving Repr, DecidableEq

/-- `MRTRenderPass.initialize(renderer, alpha, frameBufferType)`: false when
the renderer is missing, WebGL2 is absent, the 2-attachment test target
throws or is invalid, or the depth texture is missing after
`createRenderTargets`; otherwise the `createRenderTargets` outcome. -/
def mrtInitialize (e : MRTEnv) : Bool :=
  if !e.rendererPresent then false
  else if !e.isWebGL2 then false
  else if e.mrtTestThrows then false
  else if !e.mrtTexturesValid then false
  else if !e.depthTexOk then false
  else e.createTargetsOk

/-- Whether `EffectComposer.setMRTRenderPass` returns a pass (rather than
`null`): `null` when MRT is off, the `MRTRenderPass` constructor throws, the
renderer is missing, or `initialize` fails; the pass is returned even when
the depth texture is invalid (before the shared depth pass is built), while
a throwing `SharedDepthPass` constructor is caught and yields `null`. -/
def setMRTRenderPassOk (useMRT : Bool) (e : MRTEnv) : Bool :=
  if !useMRT then false
  else if e.ctorThrows then false
  else if !e.rendererPresent then false
  else if !(mrtInitialize e) then false
  else if !e.depthTexOk then true
  else if e.sharedDepthCtorThrows then false
  else true

/-- Composer state for pass management.  `nextTex` generates fresh depth
texture identities (`createDepthTexture`); `disposed` records disposed
texture identities (`deleteDepthTexture`). -/
structure Composer where
  passes : List CPass
  depthTexture : Option Nat
  nextTex : Nat
  disposed : List Nat
  useMRT : Bool
  autoRenderToScreen : Bool
  deriving Repr, DecidableEq

/-- Composer as constructed (after `setRenderer` fixed the probe result). -/
def initComposer (useMRT : Bool) : Composer :=
  { passes := [], depthTexture := none, nextTex := 0, disposed := []
    useMRT := useMRT, autoRenderToScreen := true }

/-- The substituted `MRTRenderPass`: `needsSwap = true` (constructor),
`needsDepthTexture` inherited false from `Pass`, no stored depth texture. -/
def mkMRTPass : CPass :=
  { pid := 0, enabled := true, needsSwap := true, needsDepthTexture := false
    renderToScreen := false, isRenderPass := false, isMRT := true
    isDepthPass := false, renderThrows := false, depthTex := none }

/-- Set `renderToScreen` on the last pass of the list (no-op when empty). -/
def setLastRTS (b : Bool) : List CPass → List CPass
  | [] => []
  | [p] => [{ p with renderToScreen := b }]
  | p :: q :: ps => p :: setLastRTS b (q :: ps)

/-- `passes.splice(index, 0, pass)`: insert at `n`, clamped to append. -/
def insertAt (n : Nat) (p : CPass) (ps : List CPass) : List CPass :=
  ps.take n ++ p :: ps.drop n

/-- Insertion portion of `addPass` (source lines 664-694): the
`autoRenderToScreen` bookkeeping around splicing the pass in.  Returns the
new list and the new `autoRenderToScreen` flag. -/
def insertPipeline (auto0 passRts : Bool) (index : Option Nat) (pIns : CPass)
    (ps : List CPass) : List CPass × Bool :=
  let auto1 := if auto0 then !passRts else auto0
  let ps1 := if auto0 then setLastRTS false ps else ps
  let ps2 :=
    match index with
    | some n => insertAt n pIns ps1
    | none => ps1 ++ [pIns]
  (if auto1 then setLastRTS true ps2 else ps2, auto1)

/-- `EffectComposer.addPass(pass, index)` (source lines 634-715).  When MRT
is on, the list is empty, the pass is a plain `RenderPass` and
`setMRTRenderPass` returns a pass, the MRT pass is pushed instead and the
method returns.  Otherwise the pass is sized/initialized (no modelled
state), spliced in with the render-to-screen bookkeeping, and the shared
depth texture is created and pushed to every pass (first needing pass) or
handed to the new pass alone (already allocated).  A pass inserted while a
depth texture exists receives it via `setDepthTexture`, modelled by storing
it on the inserted pass up front. -/
def composerAddPass (c : Composer) (p : CPass) (index : Option Nat)
    (e : MRTEnv) : Composer :=
  if c.useMRT && c.passes.isEmpty && p.isRenderPass && setMRTRenderPassOk c.useMRT e then
    { c with passes := c.passes ++ [mkMRTPass] }
  else
    let pIns :=
      match c.depthTexture with
      | some t => { p with depthTex := some t }
      | none => p
    let pr := insertPipeline c.autoRenderToScreen p.renderToScreen index pIns c.passes
    if c.depthTexture.isNone && p.needsDepthTexture then
      { c with
        passes := pr.1.map (fun q => { q with depthTex := some c.nextTex })
        depthTexture := some c.nextTex
        nextTex := c.nextTex + 1
        autoRenderToScreen := pr.2 }
    else
      { c with passes := pr.1, autoRenderToScreen := pr.2 }

/-- `passes.indexOf(pass)` + `splice(index, 1)`: remove the first pass with
this identity, returning the remaining list and the removal index. -/
def removeFirst (pid : Nat) : List CPass → Option (List CPass × Nat)
  | [] => none
  | p :: ps =>
    if p.pid = pid then some (ps, 0)
    else (removeFirst pid ps).map (fun r => (p :: r.1, r.2 + 1))

/-- Depth-texture portion of `removePass` (source lines 730-750) applied to
the remaining passes `l`: when a depth texture exists and no remaining pass
needs it, `deleteDepthTexture` disposes it and clears the reference on every
remaining pass. -/
def removeCore (c : Composer) (l : List CPass) : Composer :=
  match c.depthTexture with
  | some t =>
    if l.any (fun q => q.needsDepthTexture) then { c with passes := l }
    else
      { c with
        passes := l.map (fun q => { q with depthTex := none })
        depthTexture := none
        disposed := t :: c.disposed }
  | none => { c with passes := l }

/-- `EffectComposer.removePass(pass)` (source lines 723-771): when the pass
was present, run the depth-texture re-check, then move the
auto-render-to-screen flag to the new last pass when the removed one was
last. -/
def composerRemovePass (c : Composer) (pid : Nat) : Composer :=
  match removeFirst pid c.passes with
  | none => c
  | some r =>
    let c1 := removeCore c r.1
    if c.autoRenderToScreen && r.2 == c1.passes.length then
      { c1 with passes := setLastRTS true c1.passes }
    else c1

/-- One pass-management operation. -/
inductive COp where
  | add (p : CPass) (index : Option Nat) (e : MRTEnv)
  | remove (pid : Nat)
  deriving Repr, DecidableEq

/-- Apply one operation. -/
def applyOp (c : Composer) : COp → Composer
  | COp.add p index e => composerAddPass c p index e
  | COp.remove pid => composerRemovePass c pid

/-- Run a sequence of `addPass`/`removePass` operations. -/
def runOps (ops : List COp) (c0 : Composer) : Composer :=
  ops.foldl applyOp c0

/-- The composer's depth-texture invariant: every stored pass holds exactly
the composer's shared depth texture whenever one exists, a depth-needing
pass forces one to exist, and an empty pass list has none. -/
def ComposerInv (c : Composer) : Prop :=
  (∀ t, c.depthTexture = some t → ∀ q ∈ c.passes, q.depthTex = some t) ∧
  ((∃ q ∈ c.passes, q.needsDepthTexture = true) → c.depthTexture.isSome = true) ∧
  (c.passes = [] → c.depthTexture = none)

/-! Concrete manager states used to instantiate theorems with hypotheses. -/

/-- An ordinary swapping pass with identity 1. -/
def passSwapA : CPass :=
  { pid := 1, enabled := true, needsSwap := true, needsDepthTexture := false
    renderToScreen := false, isRenderPass := false, isMRT := false
    isDepthPass := false, renderThrows := false, depthTex := none }

/-- An ordinary swapping pass with identity 2. -/
def passSwapB : CPass :=
  { passSwapA with pid := 2 }

/-- A depth-consuming pass with identity 3. -/
def passNeedsDepth : CPass :=
  { passSwapA with pid := 3, needsDepthTexture := true }

/-- A plain scene-render pass with identity 4. -/
def passScene : CPass :=
  { passSwapA with pid := 4, isRenderPass := true }

/-- Environment with every MRT capability test failing. -/
def envNoMRT : MRTEnv :=
  { rendererPresent := true, ctorThrows := false, isWebGL2 := false
    mrtTestThrows := false, mrtTexturesValid := false, createTargetsOk := false
    depthTexOk := false, sharedDepthCtorThrows := false }

/-- Environment with every MRT capability test succeeding. -/
def envFullMRT : MRTEnv :=
  { rendererPresent := true, ctorThrows := false, isWebGL2 := true
    mrtTestThrows := false, mrtTexturesValid := true, createTargetsOk := true
    depthTexOk := true, sharedDepthCtorThrows := false }

/-- Effect bound to layer 1 selecting object 5. -/
def effLayerOne : SharedOutlineEffect :=
  { selectionLayer := 1, selection := [5] }

/-- Static state as left by one previous consumer call in this frame. -/
def stOne : EffectStatics :=
  { activeObjects := [9], currentLayer := some 2, updateCounter := 1 }

/-- Manager with two layers: layer 1 holds objects 5 and 6, layer 2 holds 9. -/
def mgrTwoLayers : OutlineManager :=
  { selectionsByLayer := [(1, [5, 6]), (2, [9])]
    defaultLayer := 1
    currentLayer := none
    needsUpdate := false }

/-- Manager with an empty default selection and no pending update: `update`
takes the early `return false`. -/
def mgrIdle : OutlineManager :=
  { selectionsByLayer := [(10, [])]
    defaultLayer := 10
    currentLayer := none
    needsUpdate := false }

/-- Manager with one selected object on the default layer and a pending
update. -/
def mgrBusy : OutlineManager :=
  { selectionsByLayer := [(10, [5])]
    defaultLayer := 10
    currentLayer := some 10
    needsUpdate := true }

/-- Shared context with an unset static token, background 7 and camera mask 3. -/
def ctxFresh : SharedCtx :=
  { background := some 7, cameraMask := 3, lastDepthPassTime := 0 }

/-- Shared context whose static token was stamped at 1000 ms. -/
def ctxStamped : SharedCtx :=
  { background := some 7, cameraMask := 3, lastDepthPassTime := 1000 }

/-! Lemmas about `clearUnused`. -/

/-- Finding a key in a key-preserving mapped association list. -/
theorem find_map_keyPreserving (f : Nat × List ObjId → Nat × List ObjId)
    (hf : ∀ p, (f p).1 = p.1) (l : Nat) :
    ∀ ps : List (Nat × List ObjId),
      (ps.map f).find? (fun p => p.1 == l) = (ps.find? (fun p => p.1 == l)).map f
  | [] => rfl
  | p :: ps => by
    by_cases h : p.1 = l
    · simp [List.find?, hf, h]
    · simp only [List.map_cons, List.find?]
      rw [hf p]
      simp only [show (p.1 == l) = false by simpa using h]
      exact find_map_keyPreserving f hf l ps

/-- What `clearUnused` does to a single layer lookup: the excepted layer is
untouched, every other layer keeps exactly its members present in
`activeObjects`. -/
theorem lookupLayer_clearUnused (m : OutlineManager) (active : List ObjId)
    (exceptLayer : Option Nat) (l : Nat) :
    (m.clearUnused active exceptLayer).lookupLayer l =
      (m.lookupLayer l).map (fun mem =>
        if exceptLayer = some l then mem
        else mem.filter (fun x => active.contains x)) := by
  classical
  unfold OutlineManager.clearUnused OutlineManager.lookupLayer
  rw [find_map_keyPreserving
    (fun p => if exceptLayer = some p.1 then p
      else (p.1, p.2.filter (fun x => active.contains x)))
    (by intro p; by_cases h : exceptLayer = some p.1 <;> simp [h]) l]
  cases hfind : m.selectionsByLayer.find? (fun p => p.1 == l) with
  | none => simp
  | some p =>
    have hkey : p.1 = l := by
      have := List.find?_some hfind
      simpa using this
    by_cases h : exceptLayer = some l
    · simp [hkey, h]
    · simp [hkey, h]

/-- C7. For every `activeObjects` set, every `exceptLayer` and every manager
state, after `clearUnused(activeObjects, exceptLayer)`: (1) no member of any
layer that is present in `activeObjects` has been removed, (2) every member
of a layer other than `exceptLayer` that is absent from `activeObjects` has
been removed, and (3) the selection of `exceptLayer` itself is unchanged. -/
theorem clearUnused_reconciles (m : OutlineManager) (active : List ObjId)
    (exceptLayer : Option Nat) :
    (∀ l mem x, m.lookupLayer l = some mem → x ∈ mem → x ∈ active →
      ∃ mem2, (m.clearUnused active exceptLayer).lookupLayer l = some mem2 ∧ x ∈ mem2) ∧
    (∀ l mem2 x, (m.clearUnused active exceptLayer).lookupLayer l = some mem2 →
      exceptLayer ≠ some l → x ∉ active → x ∉ mem2) ∧
    (∀ e, exceptLayer = some e →
      (m.clearUnused active exceptLayer).lookupLayer e = m.lookupLayer e) := by
  refine ⟨?_, ?_, ?_⟩
  · intro l mem x hl hx hact
    rw [lookupLayer_clearUnused, hl]
    by_cases h : exceptLayer = some l
    · exact ⟨mem, by simp [h], hx⟩
    · refine ⟨mem.filter (fun x => active.contains x), by simp [h], ?_⟩
      simp only [List.mem_filter]
      exact ⟨hx, by simpa using hact⟩
  · intro l mem2 x hl hne hact
    rw [lookupLayer_clearUnused] at hl
    cases horig : m.lookupLayer l with
    | none => rw [horig] at hl; simp at hl
    | some mem =>
      rw [horig, Option.map_some'] at hl
      have hl2 := Option.some.inj hl
      rw [if_neg hne] at hl2
      subst hl2
      simp only [List.mem_filter]
      rintro ⟨-, hc⟩
      exact hact (by simpa using hc)
  · intro e he
    rw [lookupLayer_clearUnused]
    cases horig : m.lookupLayer e <;> simp [he]

/-- Witness for C7 at a concrete manager: layer 1 keeps the active member 5,
drops the inactive member 6, and the excepted layer 2 keeps its inactive
member 9. -/
theorem clearUnused_reconciles_witness :
    (∃ mem2, (mgrTwoLayers.clearUnused [5] (some 2)).lookupLayer 1 = some mem2 ∧
      5 ∈ mem2) ∧
    (mgrTwoLayers.clearUnused [5] (some 2)).lookupLayer 2 = some [9] := by
  constructor
  · exact (clearUnused_reconciles mgrTwoLayers [5] (some 2)).1
      1 [5, 6] 5 (by decide) (by decide) (by decide)
  · have h := (clearUnused_reconciles mgrTwoLayers [5] (some 2)).2.2 2 rfl
    rw [h]
    decide

/-! Sizing (claim C9). -/

/-- Truncation of one scaled dimension, as performed by `setSize`. -/
theorem floor_scale_spec (w : Nat) (s : ℚ) (h0 : 0 < s) (h1 : s ≤ 1) :
    (((⌊(w : ℚ) * s⌋).toNat : ℚ) ≤ (w : ℚ) * s ∧
      (w : ℚ) * s < (⌊(w : ℚ) * s⌋).toNat + 1) ∧ (⌊(w : ℚ) * s⌋).toNat ≤ w := by
  have hnn : (0 : ℚ) ≤ (w : ℚ) * s :=
    mul_nonneg (by positivity) (le_of_lt h0)
  have hfl : (0 : ℤ) ≤ ⌊(w : ℚ) * s⌋ := Int.floor_nonneg.mpr hnn
  have hcast : ((⌊(w : ℚ) * s⌋.toNat : ℤ) : ℚ) = ((⌊(w : ℚ) * s⌋ : ℤ) : ℚ) := by
    exact_mod_cast congrArg (fun z : ℤ => (z : ℚ)) (Int.toNat_of_nonneg hfl)
  refine ⟨⟨?_, ?_⟩, ?_⟩
  · calc ((⌊(w : ℚ) * s⌋.toNat : Nat) : ℚ) = ((⌊(w : ℚ) * s⌋ : ℤ) : ℚ) := by
          exact_mod_cast hcast
      _ ≤ (w : ℚ) * s := Int.floor_le _
  · have hq : ((⌊(w : ℚ) * s⌋.toNat : Nat) : ℚ) = ((⌊(w : ℚ) * s⌋ : ℤ) : ℚ) := by
      exact_mod_cast hcast
    calc (w : ℚ) * s < ((⌊(w : ℚ) * s⌋ : ℤ) : ℚ) + 1 := Int.lt_floor_add_one _
      _ = ((⌊(w : ℚ) * s⌋.toNat : Nat) : ℚ) + 1 := by rw [hq]
  · have hle : (w : ℚ) * s ≤ (w : ℚ) := by
      calc (w : ℚ) * s ≤ (w : ℚ) * 1 := by
            exact mul_le_mul_of_nonneg_left h1 (by positivity)
        _ = (w : ℚ) := mul_one _
    have hmono : ⌊(w : ℚ) * s⌋ ≤ ⌊(w : ℚ)⌋ := Int.floor_le_floor hle
    have hw : ⌊(w : ℚ)⌋ = (w : ℤ) := Int.floor_natCast w
    rw [hw] at hmono
    exact Int.toNat_le.mpr hmono

/-- C9 counterexample.  At base size 1×1 and scale 1/2 (a scale in `(0,1]`,
exactly representable), the code computes `Math.floor(1 * 0.5) = 0`, while the
claim demands `round(1 * 0.5) = 1` and a physical size of at least 1. -/
theorem setSize_round_counterexample :
    (0 : ℚ) < 1 / 2 ∧ (1 / 2 : ℚ) ≤ 1 ∧
    OutlineManager.setSizePhysical 1 1 (1 / 2) = (0, 0) ∧
    round ((1 : ℚ) * (1 / 2)) = 1 ∧
    ¬ 1 ≤ (OutlineManager.setSizePhysical 1 1 (1 / 2)).1 := by
  refine ⟨by norm_num, by norm_num, ?_, ?_, ?_⟩
  · unfold OutlineManager.setSizePhysical
    norm_num
  · norm_num [round_eq]
  · unfold OutlineManager.setSizePhysical
    norm_num

/-- C9 (amended).  `setSize(w,h)` truncates: the physical render-target
dimensions are `⌊w*scale⌋` and `⌊h*scale⌋` (characterized here by the floor
inequalities), they never exceed the base size for a scale in `(0,1]`, and
they carry no ≥ 1 guarantee. -/
theorem setSize_floor_spec (w h : Nat) (s : ℚ) (h0 : 0 < s) (h1 : s ≤ 1) :
    (((OutlineManager.setSizePhysical w h s).1 : ℚ) ≤ (w : ℚ) * s ∧
      (w : ℚ) * s < ((OutlineManager.setSizePhysical w h s).1 : ℚ) + 1 ∧
      (OutlineManager.setSizePhysical w h s).1 ≤ w) ∧
    (((OutlineManager.setSizePhysical w h s).2 : ℚ) ≤ (h : ℚ) * s ∧
      (h : ℚ) * s < ((OutlineManager.setSizePhysical w h s).2 : ℚ) + 1 ∧
      (OutlineManager.setSizePhysical w h s).2 ≤ h) := by
  obtain ⟨⟨ha, hb⟩, hc⟩ := floor_scale_spec w s h0 h1
  obtain ⟨⟨hd, he⟩, hf⟩ := floor_scale_spec h s h0 h1
  exact ⟨⟨ha, hb, hc⟩, ⟨hd, he, hf⟩⟩

/-- Witness for C9 (amended) at w = h = 3, scale = 1/2: the physical size is
(1, 1), which satisfies the floor characterization. -/
theorem setSize_floor_spec_witness :
    ((OutlineManager.setSizePhysical 3 3 (1 / 2)).1 : ℚ) ≤ (3 : ℚ) * (1 / 2) ∧
    (OutlineManager.setSizePhysical 3 3 (1 / 2)).1 ≤ 3 := by
  have h := setSize_floor_spec 3 3 (1 / 2) (by norm_num) (by norm_num)
  exact ⟨h.1.1, h.1.2.2⟩

/-! Behaviour of a single non-throwing `update` call. -/

/-- Mask phase bookkeeping: the depth counter is passed through. -/
theorem maskPhase_depthRenders (m : OutlineManager) (ctx : SharedCtx)
    (mt : Bool) (d : Nat) :
    (OutlineManager.maskPhase m ctx mt d).depthRenders = d := by
  cases mt <;> simp [OutlineManager.maskPhase]

/-- Mask phase bookkeeping: exactly one mask render per phase. -/
theorem maskPhase_maskRenders (m : OutlineManager) (ctx : SharedCtx)
    (mt : Bool) (d : Nat) :
    (OutlineManager.maskPhase m ctx mt d).maskRenders = 1 := by
  cases mt <;> simp [OutlineManager.maskPhase]

/-- Mask phase bookkeeping: the static token is never touched. -/
theorem maskPhase_token (m : OutlineManager) (ctx : SharedCtx)
    (mt : Bool) (d : Nat) :
    (OutlineManager.maskPhase m ctx mt d).ctx.lastDepthPassTime =
      ctx.lastDepthPassTime := by
  cases mt <;> simp [OutlineManager.maskPhase]

/-- Mask phase bookkeeping: the scene background is never touched. -/
theorem maskPhase_background (m : OutlineManager) (ctx : SharedCtx)
    (mt : Bool) (d : Nat) :
    (OutlineManager.maskPhase m ctx mt d).ctx.background = ctx.background := by
  cases mt <;> simp [OutlineManager.maskPhase]

/-- The early `return false`: nothing selected and no pending update. -/
theorem update_early_return (m : OutlineManager) (ctx : SharedCtx) (now : Nat)
    (dt mt : Bool) (h1 : m.needsUpdate = false) (h2 : m.hasObjects = false) :
    m.update ctx now dt mt =
      { result := some false, mgr := m, ctx := ctx, depthRenders := 0, maskRenders := 0 } := by
  unfold OutlineManager.update
  simp [h1, h2]

/-- When the call proceeds and the static token gate is open, the depth pass
renders exactly once and the token is stamped with `now`. -/
theorem update_depth_run (m : OutlineManager) (ctx : SharedCtx) (now : Nat)
    (hp : m.needsUpdate = true ∨ m.hasObjects = true)
    (hg : ctx.lastDepthPassTime = 0 ∨ now - ctx.lastDepthPassTime > 16) :
    (m.update ctx now false false).depthRenders = 1 ∧
    (m.update ctx now false false).ctx.lastDepthPassTime = now := by
  unfold OutlineManager.update
  have hne : ¬(!m.needsUpdate && !m.hasObjects) = true := by
    rcases hp with h | h <;> simp [h]
  rw [if_neg hne]
  have hgb : (ctx.lastDepthPassTime = 0 || now - ctx.lastDepthPassTime > 16) = true := by
    rcases hg with h | h <;> simp [h]
  rw [if_pos hgb]
  simp [maskPhase_depthRenders, maskPhase_token]

/-- When the static token is set and at most 16 ms old, the depth pass is
skipped and the token is left alone (the mask pass may still run). -/
theorem update_depth_skip (m : OutlineManager) (ctx : SharedCtx) (now : Nat)
    (h1 : ctx.lastDepthPassTime ≠ 0) (h2 : now - ctx.lastDepthPassTime ≤ 16) :
    (m.update ctx now false false).depthRenders = 0 ∧
    (m.update ctx now false false).ctx.lastDepthPassTime = ctx.lastDepthPassTime := by
  unfold OutlineManager.update
  have hgb : (ctx.lastDepthPassTime = 0 || now - ctx.lastDepthPassTime > 16) = false := by
    simp [h1]
    omega
  by_cases hne : (!m.needsUpdate && !m.hasObjects) = true
  · rw [if_pos hne]
    exact ⟨rfl, rfl⟩
  · rw [if_neg hne, if_neg (by simp [hgb])]
    exact ⟨maskPhase_depthRenders m ctx false 0, maskPhase_token m ctx false 0⟩

/-- A proceeding call performs exactly one mask render. -/
theorem update_mask_once (m : OutlineManager) (ctx : SharedCtx) (now : Nat)
    (hp : m.needsUpdate = true ∨ m.hasObjects = true) :
    (m.update ctx now false false).maskRenders = 1 := by
  unfold OutlineManager.update
  have hne : ¬(!m.needsUpdate && !m.hasObjects) = true := by
    rcases hp with h | h <;> simp [h]
  rw [if_neg hne]
  by_cases hg : (ctx.lastDepthPassTime = 0 || now - ctx.lastDepthPassTime > 16) = true
  · rw [if_pos hg]
    simp [maskPhase_maskRenders]
  · rw [if_neg hg]
    exact maskPhase_maskRenders m ctx false 0

/-- Token/counter case split for any non-throwing `update` call: either the
depth pass did not run and the token is unchanged, or it ran once, the token
was stamped with `now`, and the gate was open at entry. -/
theorem update_token_cases (m : OutlineManager) (ctx : SharedCtx) (now : Nat) :
    ((m.update ctx now false false).depthRenders = 0 ∧
      (m.update ctx now false false).ctx.lastDepthPassTime = ctx.lastDepthPassTime) ∨
    ((m.update ctx now false false).depthRenders = 1 ∧
      (m.update ctx now false false).ctx.lastDepthPassTime = now ∧
      (ctx.lastDepthPassTime = 0 ∨ now - ctx.lastDepthPassTime > 16)) := by
  by_cases hp : m.needsUpdate = true ∨ m.hasObjects = true
  · by_cases hg : ctx.lastDepthPassTime = 0 ∨ now - ctx.lastDepthPassTime > 16
    · right
      obtain ⟨ha, hb⟩ := update_depth_run m ctx now hp hg
      exact ⟨ha, hb, hg⟩
    · left
      push_neg at hg
      exact update_depth_skip m ctx now hg.1 (by omega)
  · left
    push_neg at hp
    rw [update_early_return m ctx now false false
      (by simpa using hp.1) (by simpa using hp.2)]
    exact ⟨rfl, rfl⟩

/-! C1: the depth capture runs at most once per frame window. -/

/-- Fold invariant for `updateSeq`: within a 16 ms wall-clock window starting
at a positive base time, once a depth render has happened the stamped token
suppresses every further one. -/
theorem updateSeq_invariant (base : Nat) (hbase : 0 < base) :
    ∀ (calls : List (OutlineManager × Nat)) (acc : Nat) (ctx : SharedCtx),
      (∀ c ∈ calls, base ≤ c.2 ∧ c.2 ≤ base + 16) →
      acc ≤ 1 →
      (acc = 1 → base ≤ ctx.lastDepthPassTime ∧ ctx.lastDepthPassTime ≤ base + 16) →
      (calls.foldl (fun acc call =>
        let r := call.1.update acc.2 call.2 false false
        (acc.1 + r.depthRenders, r.ctx)) (acc, ctx)).1 ≤ 1
  | [], acc, ctx, _, hacc, _ => by simpa using hacc
  | c :: calls, acc, ctx, htimes, hacc, htok => by
    simp only [List.foldl_cons]
    have hc := htimes c (List.mem_cons_self c calls)
    have htail : ∀ d ∈ calls, base ≤ d.2 ∧ d.2 ≤ base + 16 := by
      intro d hd
      exact htimes d (List.mem_cons_of_mem c hd)
    rcases update_token_cases c.1 ctx c.2 with ⟨h0, htk⟩ | ⟨h1, htk, hgate⟩
    · have hrec := updateSeq_invariant base hbase calls acc
        ((c.1.update ctx c.2 false false).ctx) htail hacc
        (by intro h; rw [htk]; exact htok h)
      simpa [h0] using hrec
    · have haccz : acc = 0 := by
        by_contra hne
        have hacc1 : acc = 1 := by omega
        obtain ⟨hlo, hhi⟩ := htok hacc1
        rcases hgate with hz | hgt
        · omega
        · omega
      subst haccz
      have hrec := updateSeq_invariant base hbase calls 1
        ((c.1.update ctx c.2 false false).ctx) htail (by omega)
        (by intro _; rw [htk]; omega)
      simpa [h1] using hrec

/-- C1.  However many consumer effects call the manager's `update()` inside
one 16 ms wall-clock window (at positive times, threading the class-level
static token), `depthPass.render` executes at most once in total, while every
call that passes the empty-selection early return still performs its own mask
render. -/
theorem depth_pass_once_per_window (calls : List (OutlineManager × Nat))
    (ctx : SharedCtx) (base : Nat) (hbase : 0 < base)
    (htimes : ∀ c ∈ calls, base ≤ c.2 ∧ c.2 ≤ base + 16) :
    (updateSeq calls ctx).1 ≤ 1 ∧
    (∀ (m : OutlineManager) (c : SharedCtx) (now : Nat),
      m.needsUpdate = true ∨ m.hasObjects = true →
      (m.update c now false false).maskRenders = 1) := by
  constructor
  · exact updateSeq_invariant base hbase calls 0 ctx htimes (by omega) (by omega)
  · intro m c now hp
    exact update_mask_once m c now hp

/-- Witness for C1: two calls at 1000 ms and 1005 ms on a busy manager render
the depth pass exactly once in total. -/
theorem depth_pass_once_per_window_witness :
    (updateSeq [(mgrBusy, 1000), (mgrBusy, 1005)] ctxFresh).1 ≤ 1 ∧
    (updateSeq [(mgrBusy, 1000), (mgrBusy, 1005)] ctxFresh).1 = 1 := by
  refine ⟨(depth_pass_once_per_window [(mgrBusy, 1000), (mgrBusy, 1005)]
    ctxFresh 1000 (by decide) (by decide)).1, ?_⟩
  decide

/-! C4: the save/restore protocol around the depth and mask renders is not
exception-safe in the code. -/

/-- C4 fails on the code: `OutlineManager.update` has no try/finally, so the
narrow/null save-restore protocol is not exception-safe.  First scenario: a
busy manager with background 7 and an open token gate; `depthPass.render`
throws and `update` terminates with the scene background still nulled.
Second scenario: a stamped token (depth skipped), `maskPass.render` throws
and `update` terminates with the camera mask still narrowed to the current
layer's bit instead of the saved mask 3.  The spec's sentences (§5, §4.2)
state the restore must happen "even on error", so this is a bug in the code,
not in the claim. -/
theorem update_restore_not_exception_safe :
    ((mgrBusy.update ctxFresh 1000 true false).result = none ∧
      (mgrBusy.update ctxFresh 1000 true false).ctx.background = none ∧
      ctxFresh.background = some 7) ∧
    ((mgrBusy.update ctxStamped 1005 false true).result = none ∧
      (mgrBusy.update ctxStamped 1005 false true).ctx.cameraMask = layerBit 10 ∧
      ctxStamped.cameraMask = 3) := by
  decide

/-! C10: the static `Date.now()` dedup token. -/

/-- C10 counterexample.  The claim's "depth-capture render executes if and
only if the static token is unset or more than 16 ms old" fails on an
`update()` call that takes the empty-selection early return: here the token
is unset (so the claimed right-hand side holds) and yet no depth render is
executed. -/
theorem static_token_gate_counterexample :
    (mgrIdle.update { background := none, cameraMask := 1, lastDepthPassTime := 0 }
      1000 false false).depthRenders = 0 ∧
    ({ background := none, cameraMask := 1, lastDepthPassTime := 0 } : SharedCtx).lastDepthPassTime = 0 ∧
    mgrIdle.needsUpdate = false ∧ mgrIdle.hasObjects = false := by
  decide

/-- C10 (amended).  For a call that passes the empty-selection early return,
the depth-capture render executes iff the class-level static token (a
wall-clock `Date.now()` value, 0 when unset/falsy) is unset or more than
16 ms older than `now`.  The token is shared by every manager instance:
after any instance's depth render at a positive time `now`, any other
instance's call within 16 ms performs no depth render, while a gap of more
than 16 ms — even inside a single long frame — makes the depth render run
again. -/
theorem static_token_gate (m : OutlineManager) (ctx : SharedCtx) (now : Nat)
    (hp : m.needsUpdate = true ∨ m.hasObjects = true) :
    ((m.update ctx now false false).depthRenders = 1 ↔
      (ctx.lastDepthPassTime = 0 ∨ now - ctx.lastDepthPassTime > 16)) ∧
    (∀ (m2 : OutlineManager) (now2 : Nat),
      (m.update ctx now false false).depthRenders = 1 → 0 < now →
      now2 - now ≤ 16 →
      (m2.update (m.update ctx now false false).ctx now2 false false).depthRenders = 0) ∧
    (∀ (m2 : OutlineManager) (now2 : Nat),
      m2.needsUpdate = true ∨ m2.hasObjects = true →
      (m.update ctx now false false).depthRenders = 1 → now2 - now > 16 →
      (m2.update (m.update ctx now false false).ctx now2 false false).depthRenders = 1) := by
  have hstamp : (m.update ctx now false false).depthRenders = 1 →
      (m.update ctx now false false).ctx.lastDepthPassTime = now := by
    intro h1
    rcases update_token_cases m ctx now with ⟨h0, -⟩ | ⟨-, htk, -⟩
    · rw [h0] at h1; exact absurd h1 (by decide)
    · exact htk
  refine ⟨⟨?_, ?_⟩, ?_, ?_⟩
  · intro h1
    by_contra hg
    push_neg at hg
    have := (update_depth_skip m ctx now hg.1 (by omega)).1
    rw [this] at h1
    exact absurd h1 (by decide)
  · intro hg
    exact (update_depth_run m ctx now hp hg).1
  · intro m2 now2 h1 hpos hle
    have htk := hstamp h1
    exact (update_depth_skip m2 _ now2 (by rw [htk]; omega) (by rw [htk]; omega)).1
  · intro m2 now2 hp2 h1 hgt
    have htk := hstamp h1
    exact (update_depth_run m2 _ now2 hp2 (by rw [htk]; omega)).1

/-- Witness for C10 (amended): a busy manager at time 1000 with an unset
token runs the depth pass. -/
theorem static_token_gate_witness :
    (mgrBusy.update ctxFresh 1000 false false).depthRenders = 1 := by
  exact (static_token_gate mgrBusy ctxFresh 1000 (Or.inl (by decide))).1.mpr
    (Or.inl (by decide))

/-! C8: the hardcoded "last of exactly two" cleanup heuristic. -/

/-- C8.  The consumer effect's cleanup is triggered by the class-level update
counter compared to the literal 2: the counter is incremented once per
`update` call; exactly the call whose incremented counter equals 2 invokes
`clearUnused` with the accumulated active-object set, excepting that
consumer's own layer, and then resets the counter to 0, clears the active
set and the static current layer; every other call leaves the manager
untouched by cleanup and keeps accumulating. -/
theorem effect_cleanup_at_two (eff : SharedOutlineEffect) (m : OutlineManager)
    (st : EffectStatics) (ctx : SharedCtx) (now : Nat) :
    ((eff.update m st ctx now).cleanupRan = true ↔ st.updateCounter + 1 = 2) ∧
    (st.updateCounter + 1 = 2 →
      (eff.update m st ctx now).mgr =
        (eff.update m st ctx now).preCleanupMgr.clearUnused
          (eff.update m st ctx now).accumActive (some eff.selectionLayer) ∧
      (eff.update m st ctx now).statics.updateCounter = 0 ∧
      (eff.update m st ctx now).statics.activeObjects = [] ∧
      (eff.update m st ctx now).statics.currentLayer = none) ∧
    (st.updateCounter + 1 ≠ 2 →
      (eff.update m st ctx now).mgr = (eff.update m st ctx now).preCleanupMgr ∧
      (eff.update m st ctx now).statics.updateCounter = st.updateCounter + 1 ∧
      (eff.update m st ctx now).statics.activeObjects =
        (eff.update m st ctx now).accumActive) ∧
    (eff.update m st ctx now).accumActive = addUnique st.activeObjects eff.selection := by
  unfold SharedOutlineEffect.update
  by_cases h : st.updateCounter + 1 = 2 <;> simp [h]

/-- Witness for C8: with the counter at 1, the next call (layer-1 effect)
runs the cleanup and resets the statics. -/
theorem effect_cleanup_at_two_witness :
    (effLayerOne.update mgrTwoLayers stOne ctxFresh 1000).cleanupRan = true ∧
    (effLayerOne.update mgrTwoLayers stOne ctxFresh 1000).statics.updateCounter = 0 ∧
    (effLayerOne.update mgrTwoLayers stOne ctxFresh 1000).statics.activeObjects = [] := by
  have h := effect_cleanup_at_two effLayerOne mgrTwoLayers stOne ctxFresh 1000
  have h2 := h.2.1 (by decide)
  exact ⟨h.1.mpr (by decide), h2.2.1, h2.2.2.1⟩

/-! C2/C3: the composer's pass loop. -/

/-- The pass loop always succeeds and its events chain from the seed pair. -/
theorem renderLoop_ok_chain (skip : Option Nat) (useMRT : Bool) :
    ∀ (ps : List CPass) (i a b : Nat),
      ∃ evs, renderLoop skip useMRT ps i a b = Except.ok evs ∧ chainFrom a b evs
  | [], i, a, b => ⟨[], rfl, trivial⟩
  | p :: ps, i, a, b => by
    unfold renderLoop
    by_cases h1 : (!p.enabled) = true
    · rw [if_pos h1]
      exact renderLoop_ok_chain skip useMRT ps (i + 1) a b
    · rw [if_neg h1]
      by_cases h2 : skip = some i
      · rw [if_pos h2]
        exact renderLoop_ok_chain skip useMRT ps (i + 1) a b
      · rw [if_neg h2]
        by_cases h3 : (p.isMRT && !useMRT) = true
        · rw [if_pos h3]
          exact renderLoop_ok_chain skip useMRT ps (i + 1) a b
        · rw [if_neg h3]
          obtain ⟨evs, hok, hch⟩ := renderLoop_ok_chain skip useMRT ps (i + 1)
            (if p.needsSwap then b else a) (if p.needsSwap then a else b)
          simp only [hok]
          by_cases ht : p.renderThrows <;>
            exact ⟨_, rfl, by simp [passRender, ht, chainFrom]; exact hch⟩

/-- Adjacent events of a chain: a swapping event hands its output to the next
event as input (and its input as output); a non-swapping event hands the
pair over unchanged. -/
theorem chainFrom_adjacent (evs : List RenderEvent) :
    ∀ (a b j : Nat) (e e2 : RenderEvent),
      chainFrom a b evs → evs.get? j = some e → evs.get? (j + 1) = some e2 →
      (e.needsSwap = true → e2.input = e.output ∧ e2.output = e.input) ∧
      (e.needsSwap = false → e2.input = e.input ∧ e2.output = e.output) := by
  induction evs with
  | nil =>
    intro a b j e e2 _ h1 _
    simp at h1
  | cons e0 es ih =>
    intro a b j e e2 hch h1 h2
    obtain ⟨hin, hout, hrest⟩ := hch
    cases j with
    | zero =>
      rw [List.get?_cons_zero, Option.some_inj] at h1
      subst h1
      rw [List.get?_cons_succ] at h2
      cases es with
      | nil => simp at h2
      | cons e1 es2 =>
        rw [List.get?_cons_zero, Option.some_inj] at h2
        subst h2
        obtain ⟨hin2, hout2, -⟩ := hrest
        subst hin
        subst hout
        constructor
        · intro hsw
          rw [hsw] at hin2 hout2
          simp at hin2 hout2
          exact ⟨hin2, hout2⟩
        · intro hsw
          rw [hsw] at hin2 hout2
          simp at hin2 hout2
          exact ⟨hin2, hout2⟩
    | succ j2 =>
      rw [List.get?_cons_succ] at h1 h2
      exact ih _ _ j2 e e2 hrest h1 h2

/-- C2.  In every successful `composer.render` trace, a pass with
`needsSwap == true` hands the buffer it received as output to the next
rendered pass as its input (and its input becomes that pass's output), and a
pass with `needsSwap == false` hands the input/output pair over unchanged —
in particular, for a list in which every pass swaps, the input of pass `i+1`
is exactly the output of pass `i`. -/
theorem composer_swap_chain (useMRT validShared : Bool) (ps : List CPass)
    (inBuf outBuf : Nat) (evs : List RenderEvent)
    (hok : composerRender useMRT validShared ps inBuf outBuf = Except.ok evs)
    (j : Nat) (e e2 : RenderEvent)
    (h1 : evs.get? j = some e) (h2 : evs.get? (j + 1) = some e2) :
    (e.needsSwap = true → e2.input = e.output ∧ e2.output = e.input) ∧
    (e.needsSwap = false → e2.input = e.input ∧ e2.output = e.output) := by
  obtain ⟨evs2, hok2, hch⟩ := renderLoop_ok_chain
    (if useMRT && validShared then depthPassIndex ps else none) useMRT ps 0 inBuf outBuf
  unfold composerRender at hok
  rw [hok2] at hok
  have hevs : evs2 = evs := Except.ok.inj hok
  subst hevs
  exact chainFrom_adjacent evs2 inBuf outBuf j e e2 hch h1 h2

/-- Witness for C2: two enabled swapping passes seeded with handles 7/8; the
second render call receives the first call's output 8 as its input. -/
theorem composer_swap_chain_witness :
    ({ pid := 2, needsSwap := true, input := 8, output := 7, threw := false } :
      RenderEvent).input =
      ({ pid := 1, needsSwap := true, input := 7, output := 8, threw := false } :
        RenderEvent).output ∧
    ({ pid := 2, needsSwap := true, input := 8, output := 7, threw := false } :
      RenderEvent).output =
      ({ pid := 1, needsSwap := true, input := 7, output := 8, threw := false } :
        RenderEvent).input := by
  have h := composer_swap_chain false false [passSwapA, passSwapB] 7 8 _ rfl 0
    { pid := 1, needsSwap := true, input := 7, output := 8, threw := false }
    { pid := 2, needsSwap := true, input := 8, output := 7, threw := false }
    rfl rfl
  exact h.1 rfl

/-- `depthPassIndex` ignores the throw flags. -/
theorem depthPassIndex_clearThrow (ps : List CPass) :
    depthPassIndex (ps.map clearThrow) = depthPassIndex ps := by
  unfold depthPassIndex
  induction ps with
  | nil => rfl
  | cons p ps ih =>
    rw [List.map_cons]
    rw [List.findIdx?_cons, List.findIdx?_cons]
    by_cases h : p.isDepthPass <;> simp [clearThrow, h] <;>
      simpa [Function.comp] using congrArg (Option.map (fun i => i + 1)) ih

/-- The pass loop succeeds, and which passes get rendered (their identities,
in order) does not depend on which passes throw. -/
theorem renderLoop_ok_pids (skip : Option Nat) (useMRT : Bool) :
    ∀ (ps : List CPass) (i a b : Nat),
      ∃ evs evs0,
        renderLoop skip useMRT ps i a b = Except.ok evs ∧
        renderLoop skip useMRT (ps.map clearThrow) i a b = Except.ok evs0 ∧
        evs.map (fun e => e.pid) = evs0.map (fun e => e.pid)
  | [], i, a, b => ⟨[], [], rfl, rfl, rfl⟩
  | p :: ps, i, a, b => by
    have hen : (clearThrow p).enabled = p.enabled := rfl
    have hmrt : (clearThrow p).isMRT = p.isMRT := rfl
    rw [List.map_cons]
    unfold renderLoop
    rw [hen, hmrt]
    by_cases h1 : (!p.enabled) = true
    · rw [if_pos h1, if_pos h1]
      exact renderLoop_ok_pids skip useMRT ps (i + 1) a b
    · rw [if_neg h1, if_neg h1]
      by_cases h2 : skip = some i
      · rw [if_pos h2, if_pos h2]
        exact renderLoop_ok_pids skip useMRT ps (i + 1) a b
      · rw [if_neg h2, if_neg h2]
        by_cases h3 : (p.isMRT && !useMRT) = true
        · rw [if_pos h3, if_pos h3]
          exact renderLoop_ok_pids skip useMRT ps (i + 1) a b
        · rw [if_neg h3, if_neg h3]
          have hsw : (clearThrow p).needsSwap = p.needsSwap := rfl
          rw [hsw]
          obtain ⟨evs, evs0, hok, hok0, hpids⟩ := renderLoop_ok_pids skip useMRT ps (i + 1)
            (if p.needsSwap then b else a) (if p.needsSwap then a else b)
          simp only [hok, hok0]
          refine ⟨_, _, rfl, rfl, ?_⟩
          by_cases ht : p.renderThrows <;>
            simp [passRender, clearThrow, ht, hpids]

/-- C3.  `composer.render` never propagates an exception raised inside a
pass's render call: the result is always a successful trace, and the
rendered-pass sequence (identities, in order) is exactly the one of the same
frame with no pass throwing — every pass after a throwing one is still
rendered, in order. -/
theorem composer_render_catches (useMRT validShared : Bool) (ps : List CPass)
    (inBuf outBuf : Nat) :
    ∃ evs evs0,
      composerRender useMRT validShared ps inBuf outBuf = Except.ok evs ∧
      composerRender useMRT validShared (ps.map clearThrow) inBuf outBuf =
        Except.ok evs0 ∧
      evs.map (fun e => e.pid) = evs0.map (fun e => e.pid) := by
  unfold composerRender
  rw [depthPassIndex_clearThrow]
  exact renderLoop_ok_pids
    (if useMRT && validShared then depthPassIndex ps else none) useMRT ps 0 inBuf outBuf

/-! C5/C6: pass management lemmas. -/

/-- `setLastRTS` only rewrites `renderToScreen`: every member traces back to
a member of the original list with the same depth fields and identity. -/
theorem mem_setLastRTS_proj (b : Bool) :
    ∀ (ps : List CPass) (q : CPass), q ∈ setLastRTS b ps →
      ∃ q2 ∈ ps, q.depthTex = q2.depthTex ∧
        q.needsDepthTexture = q2.needsDepthTexture ∧ q.pid = q2.pid
  | [], q, h => by simp [setLastRTS] at h
  | [p], q, h => by
    simp only [setLastRTS, List.mem_singleton] at h
    subst h
    exact ⟨p, List.mem_singleton_self p, rfl, rfl, rfl⟩
  | p :: p2 :: ps, q, h => by
    simp only [setLastRTS, List.mem_cons] at h
    rcases h with h | h
    · exact ⟨p, List.mem_cons_self p _, by rw [h], by rw [h], by rw [h]⟩
    · obtain ⟨q2, hq2, hd, hn, hp⟩ := mem_setLastRTS_proj b (p2 :: ps) q h
      exact ⟨q2, List.mem_cons_of_mem p hq2, hd, hn, hp⟩

/-- `setLastRTS` preserves the length. -/
theorem setLastRTS_length (b : Bool) :
    ∀ ps : List CPass, (setLastRTS b ps).length = ps.length
  | [] => rfl
  | [_] => rfl
  | p :: p2 :: ps => by
    simp only [setLastRTS, List.length_cons]
    rw [setLastRTS_length b (p2 :: ps)]
    rfl

/-- Members of a spliced-in list: the new pass or an original member. -/
theorem mem_insertAt {n : Nat} {p q : CPass} {ps : List CPass}
    (h : q ∈ insertAt n p ps) : q = p ∨ q ∈ ps := by
  unfold insertAt at h
  rcases List.mem_append.mp h with h1 | h1
  · exact Or.inr (List.take_subset n ps h1)
  · rcases List.mem_cons.mp h1 with h2 | h2
    · exact Or.inl h2
    · exact Or.inr (List.drop_subset n ps h2)

/-- Splicing in adds exactly one element. -/
theorem insertAt_length (n : Nat) (p : CPass) (ps : List CPass) :
    (insertAt n p ps).length = ps.length + 1 := by
  simp [insertAt]
  omega

/-- Members of the insertion pipeline: either the inserted pass or an
original member, up to the `renderToScreen` bookkeeping. -/
theorem insertPipeline_mem (auto0 passRts : Bool) (index : Option Nat)
    (pIns : CPass) (ps : List CPass) (q : CPass)
    (hq : q ∈ (insertPipeline auto0 passRts index pIns ps).1) :
    (q.depthTex = pIns.depthTex ∧ q.needsDepthTexture = pIns.needsDepthTexture) ∨
    (∃ q2 ∈ ps, q.depthTex = q2.depthTex ∧
      q.needsDepthTexture = q2.needsDepthTexture) := by
  unfold insertPipeline at hq
  dsimp only at hq
  have houter : ∃ q2, q2 ∈ (match index with
      | some n => insertAt n pIns (if auto0 then setLastRTS false ps else ps)
      | none => (if auto0 then setLastRTS false ps else ps) ++ [pIns]) ∧
      q.depthTex = q2.depthTex ∧ q.needsDepthTexture = q2.needsDepthTexture := by
    by_cases hA1 : (if auto0 then !passRts else auto0) = true
    · rw [if_pos hA1] at hq
      obtain ⟨q2, hq2, hd, hn, -⟩ := mem_setLastRTS_proj true _ q hq
      exact ⟨q2, hq2, hd, hn⟩
    · rw [if_neg hA1] at hq
      exact ⟨q, hq, rfl, rfl⟩
  obtain ⟨q2, hq2, hd, hn⟩ := houter
  have hmid : q2 = pIns ∨ q2 ∈ (if auto0 then setLastRTS false ps else ps) := by
    cases index with
    | some n => exact mem_insertAt hq2
    | none =>
      rcases List.mem_append.mp hq2 with h3 | h3
      · exact Or.inr h3
      · exact Or.inl (by simpa using h3)
  rcases hmid with rfl | h3
  · exact Or.inl ⟨hd, hn⟩
  · have hback : ∃ q3 ∈ ps, q2.depthTex = q3.depthTex ∧
        q2.needsDepthTexture = q3.needsDepthTexture := by
      by_cases hA0 : auto0 = true
      · rw [if_pos hA0] at h3
        obtain ⟨q3, hq3, hd2, hn2, -⟩ := mem_setLastRTS_proj false ps q2 h3
        exact ⟨q3, hq3, hd2, hn2⟩
      · rw [if_neg hA0] at h3
        exact ⟨q2, h3, rfl, rfl⟩
    obtain ⟨q3, hq3, hd2, hn2⟩ := hback
    exact Or.inr ⟨q3, hq3, hd.trans hd2, hn.trans hn2⟩

/-- The insertion pipeline grows the list by exactly one pass. -/
theorem insertPipeline_length (auto0 passRts : Bool) (index : Option Nat)
    (pIns : CPass) (ps : List CPass) :
    (insertPipeline auto0 passRts index pIns ps).1.length = ps.length + 1 := by
  unfold insertPipeline
  cases auto0 <;> cases passRts <;> cases index <;>
    simp [setLastRTS_length, insertAt_length]

/-- Remaining passes after a removal were already present. -/
theorem removeFirst_mem (pid : Nat) :
    ∀ (ps l : List CPass) (i : Nat), removeFirst pid ps = some (l, i) →
      ∀ q ∈ l, q ∈ ps
  | [], l, i, h => by simp [removeFirst] at h
  | p :: ps, l, i, h => by
    unfold removeFirst at h
    by_cases hp : p.pid = pid
    · rw [if_pos hp, Option.some_inj] at h
      injection h with hl hi
      subst hl
      intro q hq
      exact List.mem_cons_of_mem p hq
    · rw [if_neg hp] at h
      cases hrec : removeFirst pid ps with
      | none => rw [hrec] at h; simp at h
      | some r =>
        rw [hrec, Option.map_some', Option.some_inj] at h
        injection h with hl hi
        subst hl
        intro q hq
        rcases List.mem_cons.mp hq with h2 | h2
        · exact h2 ▸ List.mem_cons_self p ps
        · exact List.mem_cons_of_mem p (removeFirst_mem pid ps r.1 r.2 (by rw [hrec]) q h2)

/-- A pass with the sought identity guarantees the removal succeeds. -/
theorem removeFirst_exists (pid : Nat) :
    ∀ ps : List CPass, (∃ q ∈ ps, q.pid = pid) →
      ∃ r, removeFirst pid ps = some r
  | [], h => by simp at h
  | p :: ps, h => by
    unfold removeFirst
    by_cases hp : p.pid = pid
    · rw [if_pos hp]
      exact ⟨(ps, 0), rfl⟩
    · rw [if_neg hp]
      obtain ⟨q, hq, hqp⟩ := h
      rcases List.mem_cons.mp hq with h2 | h2
      · exact absurd (h2 ▸ hqp) hp
      · obtain ⟨r, hr⟩ := removeFirst_exists pid ps ⟨q, h2, hqp⟩
        rw [hr, Option.map_some']
        exact ⟨_, rfl⟩

/-- Removing the unique pass carrying the sought identity removes the only
depth-needing pass: afterwards no remaining pass needs the depth texture. -/
theorem removeFirst_no_needsDepth (pid : Nat) :
    ∀ (ps l : List CPass) (i : Nat),
      (∀ q ∈ ps, q.needsDepthTexture = true → q.pid = pid) →
      ps.countP (fun q => q.pid == pid) ≤ 1 →
      removeFirst pid ps = some (l, i) →
      ∀ q ∈ l, q.needsDepthTexture = false
  | [], l, i, _, _, h => by simp [removeFirst] at h
  | p :: ps, l, i, hall, hcount, h => by
    unfold removeFirst at h
    by_cases hp : p.pid = pid
    · rw [if_pos hp, Option.some_inj] at h
      injection h with hl hi
      subst hl
      intro q hq
      by_contra hqd
      have hqd2 : q.needsDepthTexture = true := by
        cases hqn : q.needsDepthTexture
        · exact absurd hqn hqd
        · rfl
      have hqp : q.pid = pid := hall q (List.mem_cons_of_mem p hq) hqd2
      have hpos : 0 < ps.countP (fun q => q.pid == pid) :=
        List.countP_pos_iff.mpr ⟨q, hq, by simpa using hqp⟩
      have h2 : 2 ≤ (p :: ps).countP (fun q => q.pid == pid) := by
        rw [List.countP_cons]
        have hbeq : (p.pid == pid) = true := by simpa using hp
        simp only [hbeq, if_true]
        omega
      omega
    · rw [if_neg hp] at h
      cases hrec : removeFirst pid ps with
      | none => rw [hrec] at h; simp at h
      | some r =>
        rw [hrec, Option.map_some', Option.some_inj] at h
        injection h with hl hi
        subst hl
        intro q hq
        rcases List.mem_cons.mp hq with h2 | h2
        · subst h2
          cases hqn : q.needsDepthTexture
          · rfl
          · exact absurd (hall q (List.mem_cons_self q ps) hqn) hp
        · have hall2 : ∀ q2 ∈ ps, q2.needsDepthTexture = true → q2.pid = pid := by
            intro q2 hq2 hd2
            exact hall q2 (List.mem_cons_of_mem p hq2) hd2
          have hcount2 : ps.countP (fun q => q.pid == pid) ≤ 1 := by
            rw [List.countP_cons] at hcount
            omega
          exact removeFirst_no_needsDepth pid ps r.1 r.2 hall2 hcount2
            (by rw [hrec]) q h2

/-- Strengthened tracing through `setLastRTS`: the member is an original
pass with only `renderToScreen` rewritten. -/
theorem mem_setLastRTS_eq (b : Bool) :
    ∀ (ps : List CPass) (q : CPass), q ∈ setLastRTS b ps →
      ∃ q2 ∈ ps, q = { q2 with renderToScreen := q.renderToScreen }
  | [], q, h => by simp [setLastRTS] at h
  | [p], q, h => by
    simp only [setLastRTS, List.mem_singleton] at h
    subst h
    exact ⟨p, List.mem_singleton_self p, rfl⟩
  | p :: p2 :: ps, q, h => by
    simp only [setLastRTS, List.mem_cons] at h
    rcases h with h | h
    · exact ⟨p, List.mem_cons_self p _, by rw [h]⟩
    · obtain ⟨q2, hq2, he⟩ := mem_setLastRTS_eq b (p2 :: ps) q h
      exact ⟨q2, List.mem_cons_of_mem p hq2, he⟩

/-- Strengthened tracing through the insertion pipeline: every member is the
inserted pass or an original pass, with only `renderToScreen` rewritten. -/
theorem insertPipeline_mem_eq (auto0 passRts : Bool) (index : Option Nat)
    (pIns : CPass) (ps : List CPass) (q : CPass)
    (hq : q ∈ (insertPipeline auto0 passRts index pIns ps).1) :
    q = { pIns with renderToScreen := q.renderToScreen } ∨
    (∃ q2 ∈ ps, q = { q2 with renderToScreen := q.renderToScreen }) := by
  unfold insertPipeline at hq
  dsimp only at hq
  have houter : ∃ q2, q2 ∈ (match index with
      | some n => insertAt n pIns (if auto0 then setLastRTS false ps else ps)
      | none => (if auto0 then setLastRTS false ps else ps) ++ [pIns]) ∧
      q = { q2 with renderToScreen := q.renderToScreen } := by
    by_cases hA1 : (if auto0 then !passRts else auto0) = true
    · rw [if_pos hA1] at hq
      obtain ⟨q2, hq2, he⟩ := mem_setLastRTS_eq true _ q hq
      exact ⟨q2, hq2, he⟩
    · rw [if_neg hA1] at hq
      exact ⟨q, hq, rfl⟩
  obtain ⟨q2, hq2, he⟩ := houter
  have hmid : q2 = pIns ∨ q2 ∈ (if auto0 then setLastRTS false ps else ps) := by
    cases index with
    | some n => exact mem_insertAt hq2
    | none =>
      rcases List.mem_append.mp hq2 with h3 | h3
      · exact Or.inr h3
      · exact Or.inl (by simpa using h3)
  rcases hmid with rfl | h3
  · exact Or.inl he
  · have hback : ∃ q3 ∈ ps, q2 = { q3 with renderToScreen := q2.renderToScreen } := by
      by_cases hA0 : auto0 = true
      · rw [if_pos hA0] at h3
        exact mem_setLastRTS_eq false ps q2 h3
      · rw [if_neg hA0] at h3
        exact ⟨q2, h3, rfl⟩
    obtain ⟨q3, hq3, he2⟩ := hback
    refine Or.inr ⟨q3, hq3, ?_⟩
    rw [he, he2]

/-! Invariant preservation. -/

/-- The invariant survives moving the render-to-screen flag. -/
theorem inv_passes_setLastRTS (c : Composer) (h : ComposerInv c) :
    ComposerInv { c with passes := setLastRTS true c.passes } := by
  obtain ⟨h1, h2, h3⟩ := h
  refine ⟨?_, ?_, ?_⟩
  · intro t ht q hq
    obtain ⟨q2, hq2, hd, -, -⟩ := mem_setLastRTS_proj true c.passes q hq
    rw [hd]
    exact h1 t ht q2 hq2
  · rintro ⟨q, hq, hqd⟩
    obtain ⟨q2, hq2, -, hn, -⟩ := mem_setLastRTS_proj true c.passes q hq
    exact h2 ⟨q2, hq2, by rw [← hn]; exact hqd⟩
  · intro hps
    apply h3
    have hps2 : setLastRTS true c.passes = [] := hps
    have hlen := setLastRTS_length true c.passes
    rw [hps2] at hlen
    exact List.length_eq_zero.mp hlen.symm

/-- The invariant survives the depth-texture re-check of `removePass`. -/
theorem inv_removeCore (c : Composer) (l : List CPass)
    (hsub : ∀ q ∈ l, q ∈ c.passes) (h : ComposerInv c) :
    ComposerInv (removeCore c l) := by
  obtain ⟨h1, h2, h3⟩ := h
  unfold removeCore
  cases hdt : c.depthTexture with
  | none =>
    dsimp only
    refine ⟨?_, ?_, ?_⟩
    · intro t ht
      exact absurd (show (none : Option Nat) = some t from ht) (by simp)
    · rintro ⟨q, hq, hqd⟩
      have hql : q ∈ l := hq
      have hh := h2 ⟨q, hsub q hql, hqd⟩
      rw [hdt] at hh
      exact absurd hh (by simp)
    · intro _
      rfl
  | some t =>
    dsimp only
    by_cases hany : (l.any fun q => q.needsDepthTexture) = true
    · rw [if_pos hany]
      refine ⟨?_, ?_, ?_⟩
      · intro t2 ht2 q hq
        have hql : q ∈ l := hq
        have ht3 : (some t : Option Nat) = some t2 := ht2
        exact h1 t2 (hdt.trans ht3) q (hsub q hql)
      · intro _
        rfl
      · intro hps
        exfalso
        have hl : l = [] := hps
        subst hl
        simp at hany
    · rw [if_neg hany]
      refine ⟨?_, ?_, ?_⟩
      · intro t2 ht2
        exact absurd (show (none : Option Nat) = some t2 from ht2) (by simp)
      · rintro ⟨q, hq, hqd⟩
        have hqm : q ∈ l.map (fun q => { q with depthTex := none }) := hq
        obtain ⟨q2, hq2, rfl⟩ := List.mem_map.mp hqm
        have hq2d : q2.needsDepthTexture = true := hqd
        exact absurd (List.any_eq_true.mpr ⟨q2, hq2, hq2d⟩) hany
      · intro _
        rfl

/-- The invariant survives `addPass`. -/
theorem inv_addPass (c : Composer) (p : CPass) (index : Option Nat)
    (e : MRTEnv) (h : ComposerInv c) :
    ComposerInv (composerAddPass c p index e) := by
  obtain ⟨h1, h2, h3⟩ := h
  unfold composerAddPass
  by_cases hsub : (c.useMRT && c.passes.isEmpty && p.isRenderPass &&
      setMRTRenderPassOk c.useMRT e) = true
  · rw [if_pos hsub]
    simp only [Bool.and_eq_true] at hsub
    have hemp : c.passes = [] := List.isEmpty_iff.mp hsub.1.1.2
    have hdt : c.depthTexture = none := h3 hemp
    refine ⟨?_, ?_, ?_⟩
    · intro t ht
      have ht2 : c.depthTexture = some t := ht
      rw [hdt] at ht2
      exact absurd ht2 (by simp)
    · rintro ⟨q, hq, hqd⟩
      have hq2 : q ∈ c.passes ++ [mkMRTPass] := hq
      rw [hemp] at hq2
      simp only [List.nil_append, List.mem_singleton] at hq2
      subst hq2
      exact absurd hqd (by decide)
    · intro _
      exact hdt
  · rw [if_neg hsub]
    dsimp only
    cases hdt : c.depthTexture with
    | some t =>
      dsimp only
      rw [if_neg (show ¬((some t : Option Nat).isNone && p.needsDepthTexture) = true
        by simp)]
      refine ⟨?_, ?_, ?_⟩
      · intro t2 ht2 q hq
        have ht3 : (some t : Option Nat) = some t2 := ht2
        injection ht3 with htt
        subst htt
        have hqp : q ∈ (insertPipeline c.autoRenderToScreen p.renderToScreen index
            { p with depthTex := some t } c.passes).1 := hq
        rcases insertPipeline_mem _ _ _ _ _ q hqp with ⟨hdq, -⟩ | ⟨q2, hq2, hdq, -⟩
        · exact hdq
        · exact hdq.trans (h1 t hdt q2 hq2)
      · intro _
        rfl
      · intro hps
        exfalso
        have hps2 : (insertPipeline c.autoRenderToScreen p.renderToScreen index
            { p with depthTex := some t } c.passes).1 = [] := hps
        have hlen := insertPipeline_length c.autoRenderToScreen p.renderToScreen index
          { p with depthTex := some t } c.passes
        rw [hps2] at hlen
        simp at hlen
    | none =>
      dsimp only
      by_cases hnd : p.needsDepthTexture = true
      · rw [if_pos (show ((none : Option Nat).isNone && p.needsDepthTexture) = true
          by simp [hnd])]
        refine ⟨?_, ?_, ?_⟩
        · intro t2 ht2 q hq
          have ht3 : (some c.nextTex : Option Nat) = some t2 := ht2
          injection ht3 with htt
          have hqm : q ∈ (insertPipeline c.autoRenderToScreen p.renderToScreen index
              p c.passes).1.map (fun q => { q with depthTex := some c.nextTex }) := hq
          obtain ⟨q2, hq2, rfl⟩ := List.mem_map.mp hqm
          rw [← htt]
        · intro _
          rfl
        · intro hps
          exfalso
          have hps2 : (insertPipeline c.autoRenderToScreen p.renderToScreen index
              p c.passes).1.map (fun q => { q with depthTex := some c.nextTex }) = [] := hps
          rw [List.map_eq_nil_iff] at hps2
          have hlen := insertPipeline_length c.autoRenderToScreen p.renderToScreen index
            p c.passes
          rw [hps2] at hlen
          simp at hlen
      · rw [if_neg (show ¬((none : Option Nat).isNone && p.needsDepthTexture) = true
          by simp [hnd])]
        refine ⟨?_, ?_, ?_⟩
        · intro t2 ht2
          exact absurd (show (none : Option Nat) = some t2 from ht2) (by simp)
        · rintro ⟨q, hq, hqd⟩
          exfalso
          have hqp : q ∈ (insertPipeline c.autoRenderToScreen p.renderToScreen index
              p c.passes).1 := hq
          rcases insertPipeline_mem _ _ _ _ _ q hqp with ⟨-, hn⟩ | ⟨q2, hq2, -, hn⟩
          · rw [hn] at hqd
            exact hnd hqd
          · rw [hn] at hqd
            have hh := h2 ⟨q2, hq2, hqd⟩
            rw [hdt] at hh
            exact absurd hh (by simp)
        · intro _
          rfl

/-- The invariant survives `removePass`. -/
theorem inv_removePass (c : Composer) (pid : Nat) (h : ComposerInv c) :
    ComposerInv (composerRemovePass c pid) := by
  unfold composerRemovePass
  cases hrf : removeFirst pid c.passes with
  | none => exact h
  | some r =>
    dsimp only
    have hmem : ∀ q ∈ r.1, q ∈ c.passes :=
      removeFirst_mem pid c.passes r.1 r.2
        (show removeFirst pid c.passes = some (r.1, r.2) from hrf)
    have hc1 : ComposerInv (removeCore c r.1) := inv_removeCore c r.1 hmem h
    by_cases hif : (c.autoRenderToScreen && r.2 == (removeCore c r.1).passes.length) = true
    · rw [if_pos hif]
      exact inv_passes_setLastRTS (removeCore c r.1) hc1
    · rw [if_neg hif]
      exact hc1

/-- The invariant holds at construction. -/
theorem inv_init (u : Bool) : ComposerInv (initComposer u) := by
  refine ⟨?_, ?_, ?_⟩
  · intro t ht
    exact absurd (show (none : Option Nat) = some t from ht) (by simp)
  · rintro ⟨q, hq, -⟩
    exact absurd hq (by simp [initComposer])
  · intro _
    rfl

/-- The invariant holds at every reachable state. -/
theorem inv_runOps (ops : List COp) :
    ∀ c : Composer, ComposerInv c → ComposerInv (runOps ops c)
  | c, h => by
    induction ops generalizing c with
    | nil => exact h
    | cons op ops ih =>
      have hstep : ComposerInv (applyOp c op) := by
        cases op with
        | add p index e => exact inv_addPass c p index e h
        | remove pid => exact inv_removePass c pid h
      exact ih (applyOp c op) hstep

/-- C5.  At every state reachable by `addPass`/`removePass` sequences from a
fresh composer: if any pass needs a depth texture, the composer holds
exactly one shared depth texture, propagated via `setDepthTexture` to every
depth-consuming pass; and removing the only depth-needing pass (unique
identity) disposes the shared texture and leaves no remaining pass holding
a reference to it. -/
theorem depth_texture_lifecycle (u : Bool) (ops : List COp) :
    ((∃ q ∈ (runOps ops (initComposer u)).passes, q.needsDepthTexture = true) →
      ∃ t, (runOps ops (initComposer u)).depthTexture = some t ∧
        ∀ q ∈ (runOps ops (initComposer u)).passes,
          q.needsDepthTexture = true → q.depthTex = some t) ∧
    (∀ pid,
      (∃ q ∈ (runOps ops (initComposer u)).passes,
        q.pid = pid ∧ q.needsDepthTexture = true) →
      (∀ q ∈ (runOps ops (initComposer u)).passes,
        q.needsDepthTexture = true → q.pid = pid) →
      (runOps ops (initComposer u)).passes.countP (fun q => q.pid == pid) ≤ 1 →
      ∃ t, (runOps ops (initComposer u)).depthTexture = some t ∧
        (composerRemovePass (runOps ops (initComposer u)) pid).depthTexture = none ∧
        t ∈ (composerRemovePass (runOps ops (initComposer u)) pid).disposed ∧
        ∀ q ∈ (composerRemovePass (runOps ops (initComposer u)) pid).passes,
          q.depthTex = none) := by
  obtain ⟨h1, h2, h3⟩ := inv_runOps ops (initComposer u) (inv_init u)
  constructor
  · rintro ⟨q, hq, hqd⟩
    have hs := h2 ⟨q, hq, hqd⟩
    cases hdt : (runOps ops (initComposer u)).depthTexture with
    | none =>
      rw [hdt] at hs
      exact absurd hs (by simp)
    | some t =>
      exact ⟨t, rfl, fun q2 hq2 _ => h1 t hdt q2 hq2⟩
  · intro pid hex hall hcount
    obtain ⟨q0, hq0, hq0p, hq0d⟩ := hex
    have hs := h2 ⟨q0, hq0, hq0d⟩
    cases hdt : (runOps ops (initComposer u)).depthTexture with
    | none =>
      rw [hdt] at hs
      exact absurd hs (by simp)
    | some t =>
      refine ⟨t, rfl, ?_⟩
      obtain ⟨r, hrf⟩ := removeFirst_exists pid (runOps ops (initComposer u)).passes
        ⟨q0, hq0, hq0p⟩
      have hnone : ∀ q ∈ r.1, q.needsDepthTexture = false :=
        removeFirst_no_needsDepth pid (runOps ops (initComposer u)).passes r.1 r.2
          hall hcount
          (show removeFirst pid (runOps ops (initComposer u)).passes = some (r.1, r.2)
            from hrf)
      have hany : (r.1.any fun q => q.needsDepthTexture) = false := by
        cases hh : r.1.any fun q => q.needsDepthTexture
        · rfl
        · obtain ⟨q, hq, hqd⟩ := List.any_eq_true.mp hh
          rw [hnone q hq] at hqd
          exact absurd hqd (by decide)
      have hcore : removeCore (runOps ops (initComposer u)) r.1 =
          { runOps ops (initComposer u) with
            passes := r.1.map (fun q => { q with depthTex := none })
            depthTexture := none
            disposed := t :: (runOps ops (initComposer u)).disposed } := by
        unfold removeCore
        rw [hdt]
        dsimp only
        rw [if_neg (by simp [hany])]
      unfold composerRemovePass
      rw [hrf]
      dsimp only
      rw [hcore]
      dsimp only
      by_cases hif : ((runOps ops (initComposer u)).autoRenderToScreen &&
          r.2 == (r.1.map (fun q => { q with depthTex := none })).length) = true
      · rw [if_pos hif]
        refine ⟨rfl, List.mem_cons_self t _, ?_⟩
        intro q hq
        have hq2 : q ∈ setLastRTS true (r.1.map (fun q => { q with depthTex := none })) := hq
        obtain ⟨q2, hq2m, hdq, -, -⟩ := mem_setLastRTS_proj true _ q hq2
        obtain ⟨q3, hq3, rfl⟩ := List.mem_map.mp hq2m
        rw [hdq]
      · rw [if_neg hif]
        refine ⟨rfl, List.mem_cons_self t _, ?_⟩
        intro q hq
        have hqm : q ∈ r.1.map (fun q => { q with depthTex := none }) := hq
        obtain ⟨q3, hq3, rfl⟩ := List.mem_map.mp hqm
        rfl

/-- Witness for C5: adding one depth-needing pass to a fresh composer
allocates the shared texture and hands it to the pass; removing that pass
deletes the texture, disposes it and clears every remaining reference. -/
theorem depth_texture_lifecycle_witness :
    (∃ t, (runOps [COp.add passNeedsDepth none envNoMRT] (initComposer false)).depthTexture = some t ∧
      ∀ q ∈ (runOps [COp.add passNeedsDepth none envNoMRT] (initComposer false)).passes,
        q.needsDepthTexture = true → q.depthTex = some t) ∧
    (composerRemovePass (runOps [COp.add passNeedsDepth none envNoMRT]
      (initComposer false)) 3).depthTexture = none := by
  have h := depth_texture_lifecycle false [COp.add passNeedsDepth none envNoMRT]
  constructor
  · exact h.1 (by decide)
  · obtain ⟨t, -, hnone, -, -⟩ := h.2 3 (by decide) (by decide) (by decide)
    exact hnone

/-- Reaching a substitution decision requires both the capability probe and a
successful initialization: `setMRTRenderPass` returns a pass only when MRT
was detected and `MRTRenderPass.initialize` returned true. -/
theorem setMRTOk_implies (useMRT : Bool) (e : MRTEnv)
    (h : setMRTRenderPassOk useMRT e = true) :
    useMRT = true ∧ mrtInitialize e = true := by
  obtain ⟨b1, b2, b3, b4, b5, b6, b7, b8⟩ := e
  revert h
  revert useMRT b1 b2 b3 b4 b5 b6 b7 b8
  decide

/-- C6.  For the very first `addPass` of a plain scene-render pass: the
composer substitutes the MRT pass only when the capability probe succeeded
(`_useMRT`) and the substitute's `initialize` returned success; in every
other case (capability absent, substitute creation or initialize failure,
shared-depth construction throwing) the original plain pass itself ends up
as the single list entry, unchanged up to the composer-managed
render-to-screen/depth-texture bookkeeping. -/
theorem addPass_first_renderpass_substitution (c : Composer) (p : CPass)
    (index : Option Nat) (e : MRTEnv)
    (h0 : c.passes = []) (h1 : p.isRenderPass = true) (h2 : p.isMRT = false)
    (h3 : c.depthTexture = none) :
    (∃ q, (composerAddPass c p index e).passes = [q]) ∧
    (∀ q, (composerAddPass c p index e).passes = [q] → q.isMRT = true →
      c.useMRT = true ∧ mrtInitialize e = true) ∧
    (∀ q, (composerAddPass c p index e).passes = [q] → q.isMRT = false →
      q.pid = p.pid ∧ q.isRenderPass = true ∧ q.needsSwap = p.needsSwap ∧
      q.needsDepthTexture = p.needsDepthTexture) := by
  unfold composerAddPass
  by_cases hsub : (c.useMRT && c.passes.isEmpty && p.isRenderPass &&
      setMRTRenderPassOk c.useMRT e) = true
  · rw [if_pos hsub]
    simp only [Bool.and_eq_true] at hsub
    refine ⟨⟨mkMRTPass, by simp [h0]⟩, ?_, ?_⟩
    · intro q _ _
      exact ⟨hsub.1.1.1, (setMRTOk_implies c.useMRT e hsub.2).2⟩
    · intro q hq hqm
      exfalso
      have hq2 : c.passes ++ [mkMRTPass] = [q] := hq
      rw [h0] at hq2
      simp only [List.nil_append, List.cons.injEq, and_true] at hq2
      rw [← hq2] at hqm
      exact absurd hqm (by decide)
  · rw [if_neg hsub]
    dsimp only
    rw [h3, h0]
    dsimp only
    have hlen := insertPipeline_length c.autoRenderToScreen p.renderToScreen index p []
    obtain ⟨q1, hq1⟩ := List.length_eq_one.mp (by simpa using hlen)
    have hq1mem : q1 ∈ (insertPipeline c.autoRenderToScreen p.renderToScreen index
        p []).1 := by
      rw [hq1]
      exact List.mem_singleton_self q1
    have htr := insertPipeline_mem_eq c.autoRenderToScreen p.renderToScreen index
      p [] q1 hq1mem
    have he : q1 = { p with renderToScreen := q1.renderToScreen } := by
      rcases htr with he | ⟨q2, hq2, -⟩
      · exact he
      · exact absurd hq2 (by simp)
    by_cases hnd : p.needsDepthTexture = true
    · rw [if_pos (show ((none : Option Nat).isNone && p.needsDepthTexture) = true
        by simp [hnd])]
      refine ⟨⟨{ q1 with depthTex := some c.nextTex }, by rw [hq1]; rfl⟩, ?_, ?_⟩
      · intro q hq hqm
        exfalso
        have hpp : (insertPipeline c.autoRenderToScreen p.renderToScreen index
            p []).1.map (fun q => { q with depthTex := some c.nextTex }) = [q] := hq
        rw [hq1] at hpp
        simp only [List.map_cons, List.map_nil, List.cons.injEq, and_true] at hpp
        rw [← hpp] at hqm
        have hq1m : q1.isMRT = true := hqm
        rw [he] at hq1m
        have hpm : p.isMRT = true := hq1m
        rw [h2] at hpm
        exact absurd hpm (by decide)
      · intro q hq hqm
        have hpp : (insertPipeline c.autoRenderToScreen p.renderToScreen index
            p []).1.map (fun q => { q with depthTex := some c.nextTex }) = [q] := hq
        rw [hq1] at hpp
        simp only [List.map_cons, List.map_nil, List.cons.injEq, and_true] at hpp
        refine ⟨?_, ?_, ?_, ?_⟩
        · rw [← hpp, he]
        · rw [← hpp, he]
          exact h1
        · rw [← hpp, he]
        · rw [← hpp, he]
    · rw [if_neg (show ¬((none : Option Nat).isNone && p.needsDepthTexture) = true
        by simp [hnd])]
      refine ⟨⟨q1, hq1⟩, ?_, ?_⟩
      · intro q hq hqm
        exfalso
        have hpp : (insertPipeline c.autoRenderToScreen p.renderToScreen index
            p []).1 = [q] := hq
        rw [hq1] at hpp
        simp only [List.cons.injEq, and_true] at hpp
        rw [← hpp] at hqm
        have hq1m : q1.isMRT = true := hqm
        rw [he] at hq1m
        have hpm : p.isMRT = true := hq1m
        rw [h2] at hpm
        exact absurd hpm (by decide)
      · intro q hq hqm
        have hpp : (insertPipeline c.autoRenderToScreen p.renderToScreen index
            p []).1 = [q] := hq
        rw [hq1] at hpp
        simp only [List.cons.injEq, and_true] at hpp
        refine ⟨?_, ?_, ?_, ?_⟩
        · rw [← hpp, he]
        · rw [← hpp, he]
          exact h1
        · rw [← hpp, he]
        · rw [← hpp, he]

/-- Witness for C6: with MRT unsupported, adding a plain scene-render pass as
the first pass keeps the original pass (identity 4); with full MRT support
the substitution yields the MRT pass, which requires the probe and the
initialize success. -/
theorem addPass_first_renderpass_substitution_witness :
    (composerAddPass (initComposer false) passScene none envNoMRT).passes.length = 1 ∧
    ((composerAddPass (initComposer true) passScene none envFullMRT).passes = [mkMRTPass] →
      mrtInitialize envFullMRT = true) := by
  constructor
  · obtain ⟨q, hq⟩ := (addPass_first_renderpass_substitution (initComposer false)
      passScene none envNoMRT rfl (by decide) (by decide) rfl).1
    rw [hq]
    rfl
  · intro hq
    exact ((addPass_first_renderpass_substitution (initComposer true)
      passScene none envFullMRT rfl (by decide) (by decide) rfl).2.1
      mkMRTPass hq (by decide)).2

end Post

